import Mathlib

/-
Verification development for the Labubu Squad Discord bot (labubu_bot.py).

The file shallow-embeds the bot's core: the polling loop `check_player_events`
(event deduplication against the `processed_events` collection), the registry
commands `register` / `unregister`, the item database initialisation, and the
pure helper `parse_item_query`.  Python dictionaries become structures, the
Mongo collections become lists carried in an explicit `DB` state, HTTP calls
become function parameters, and a raised network exception is modelled as a
distinguished fetch outcome that aborts the remainder of the tick.
-/

/-- A JSON scalar as Python sees it: the code applies `str(...)` to the
`EventId` field, so we keep the value's dynamic type (number or string). -/
inductive PyVal where
  | num : Int → PyVal
  | str : String → PyVal
deriving DecidableEq

/-- Python `str(...)` on an `EventId` value: decimal form of a number,
identity on a string. -/
def pyStr : PyVal → String
  | PyVal.num n => toString n
  | PyVal.str s => s

/-- A `Killer` / `Victim` / participant record of an event (the fields the
code reads). `none` models an absent dictionary key. -/
structure PlayerRef where
  Id : Nat
  Name : String
  GuildName : Option String
  AllianceName : Option String
deriving DecidableEq

/-- An event record returned by the game API (fields the poller reads). -/
structure Event where
  EventId : PyVal
  Killer : PlayerRef
  Victim : PlayerRef
  Participants : List PlayerRef
  TotalVictimKillFame : Nat
  TimeStamp : String
deriving DecidableEq

/-- The observable content of one killboard message the poller sends:
embed title, killboard url, description text, and the dedup key used. -/
structure Notif where
  title : String
  url : String
  description : String
  eventIdStr : String
deriving DecidableEq

/-- `f"[{killer.get('GuildName', 'N/A')}]" + (f" [{...}]" if killer.get('AllianceName') else "")`;
an empty alliance string is falsy in Python, hence the explicit test. -/
def guildTag (p : PlayerRef) : String :=
  "[" ++ p.GuildName.getD "N/A" ++ "]" ++
    (match p.AllianceName with
     | some a => if a = "" then "" else " [" ++ a ++ "]"
     | none => "")

/-- The embed built in the body of `check_player_events` for one unseen
event (lines 217-240).  It depends only on the event record. -/
def mkNotif (e : Event) : Notif :=
  let eid := pyStr e.EventId
  let participants :=
    (e.Participants.filter (fun p => p.Id ≠ e.Killer.Id)).map PlayerRef.Name
  { title := e.Killer.Name ++ " killed " ++ e.Victim.Name
    url := "https://albiononline.com/en/killboard/kill/" ++ eid
    description :=
      "**Killer :** " ++ e.Killer.Name ++ " - " ++ guildTag e.Killer ++
      "\n**Victim :** " ++ e.Victim.Name ++ " - " ++ guildTag e.Victim ++
      (if participants = [] then ""
       else "\n**Participants :** " ++ String.intercalate ", " participants)
    eventIdStr := eid }

/-- The `player_data` document stored by the `register` command (the search
result fields the poller reads). -/
structure PlayerData where
  Id : Nat
  Name : String
deriving DecidableEq

/-- One document of the `registered_players` collection:
`{'_id': ctx.author.id, 'player_data': {...}}`. -/
structure RegisteredPlayer where
  ownerId : Nat
  player_data : PlayerData
deriving DecidableEq

/-- The notification the loop body builds while player `p` is the current
`player_doc`: the construction reads only the event, never `p`. -/
def mkNotifFor (_p : RegisteredPlayer) (e : Event) : Notif :=
  mkNotif e

/-- Outcome of `requests.get(...)` inside `get_player_events`: a 200 reply
with a JSON list, a non-200 reply, or a raised exception. -/
inductive FetchResult where
  | ok : List Event → FetchResult
  | httpError : FetchResult
  | raised : FetchResult
deriving DecidableEq

/-- `get_player_events`: returns the JSON body on status 200, `[]` on any
other status; a raised exception propagates (`none`) since the function has
no exception handler. -/
def get_player_events (src : Nat → FetchResult) (player_id : Nat) :
    Option (List Event) :=
  match src player_id with
  | FetchResult.ok l => some l
  | FetchResult.httpError => some []
  | FetchResult.raised => none

/-- The inner `for event in events` loop: emit a notification and insert the
key for every event whose `str(EventId)` is not yet in `processed_events`. -/
def processEvents (store : List String) : List Event → List Notif × List String
  | [] => ([], store)
  | e :: rest =>
    let eid := pyStr e.EventId
    if eid ∈ store then processEvents store rest
    else
      let res := processEvents (store ++ [eid]) rest
      (mkNotif e :: res.1, res.2)

/-- Result of the player loop: messages sent, final `processed_events`
contents, and whether an unhandled exception escaped the tick. -/
structure TickResult where
  notifs : List Notif
  store : List String
  raised : Bool
deriving DecidableEq

/-- The outer `for player_doc in players_collection.find()` loop.  A raised
fetch aborts the remaining players but the messages already sent and keys
already inserted persist. -/
def runPlayers (src : Nat → FetchResult) (store : List String) :
    List RegisteredPlayer → TickResult
  | [] => ⟨[], store, false⟩
  | p :: ps =>
    match get_player_events src p.player_data.Id with
    | none => ⟨[], store, true⟩
    | some evs =>
      let res := processEvents store evs
      let rest := runPlayers src res.2 ps
      ⟨res.1 ++ rest.notifs, rest.store, rest.raised⟩

/-- One item document as written by `_initialize_item_database`
(the `_id` field duplicates `unique_name`). -/
structure ItemRec where
  unique_name : String
  friendly_name : String
  base_friendly_name : String
deriving DecidableEq

/-- The document database: the three collections the code touches. -/
structure DB where
  registered_players : List RegisteredPlayer
  processed_events : List String
  items : List ItemRec
deriving DecidableEq

/-- Process-wide configuration read by the tick: the global `db` handle,
`KILLBOARD_CHANNEL_ID`, and `bot.get_channel` resolution. -/
structure BotConfig where
  db : Option DB
  killboardChannelId : Option Nat
  resolveChannel : Nat → Option Nat

/-- One tick of the `@tasks.loop(seconds=60)` body `check_player_events`:
guard on `db`/channel availability, then run the player loop.  Returns the
updated database, the messages sent, and the raised-exception flag. -/
def check_player_events (cfg : BotConfig) (src : Nat → FetchResult) :
    Option DB × List Notif × Bool :=
  match cfg.db with
  | none => (cfg.db, [], false)
  | some d =>
    match cfg.killboardChannelId with
    | none => (cfg.db, [], false)
    | some cid =>
      if cid = 0 then (cfg.db, [], false)
      else
        match cfg.resolveChannel cid with
        | none => (cfg.db, [], false)
        | some _ =>
          let r := runPlayers src d.processed_events d.registered_players
          (some { d with processed_events := r.store }, r.notifs, r.raised)

/-- Contents of `processed_events` under an optional database handle. -/
def storeOf : Option DB → List String
  | none => []
  | some d => d.processed_events

/-- A sequence of ticks, each seeing the upstream API in a possibly
different state; the database state is threaded through. -/
def runTicks (cfg : BotConfig) : List (Nat → FetchResult) → Option DB × List Notif
  | [] => (cfg.db, [])
  | src :: rest =>
    let r := check_player_events cfg src
    let later := runTicks { cfg with db := r.1 } rest
    (later.1, r.2.1 ++ later.2)

/-- Replace the `player_data` of the first document whose `_id` matches
(`update_one` touches at most one document). -/
def setFirst (k : Nat) (v : PlayerData) :
    List RegisteredPlayer → List RegisteredPlayer
  | [] => []
  | p :: ps =>
    if p.ownerId = k then { p with player_data := v } :: ps
    else p :: setFirst k v ps

/-- `update_one({'_id': k}, {'$set': {'player_data': v}}, upsert=True)` on
`registered_players`. -/
def update_one_upsert (l : List RegisteredPlayer) (k : Nat) (v : PlayerData) :
    List RegisteredPlayer :=
  if l.any (fun p => p.ownerId == k) then setFirst k v l
  else l ++ [⟨k, v⟩]

/-- The `register` command's database effect: no-op when the database is
down or the player search found nothing, otherwise upsert by author id. -/
def register (db? : Option DB) (owner : Nat) (player_data : Option PlayerData) :
    Option DB :=
  match db? with
  | none => none
  | some d =>
    match player_data with
    | none => some d
    | some pd =>
      some { d with
        registered_players := update_one_upsert d.registered_players owner pd }

/-- The `unregister` command's database effect: `delete_one` by author id;
the boolean is `deleted_count > 0`. -/
def unregister (db? : Option DB) (owner : Nat) : Option DB × Bool :=
  match db? with
  | none => (none, false)
  | some d =>
    (some { d with
       registered_players := d.registered_players.eraseP (fun p => p.ownerId == owner) },
     d.registered_players.any (fun p => p.ownerId == owner))

/-- Raw entry of the upstream `items.json` dump: localized EN-US name and
`UniqueName`, either possibly missing. -/
structure RawItem where
  LocalizedNameEN : Option String
  UniqueName : Option String
deriving DecidableEq

/-- An ASCII apostrophe, written by code point. -/
def aposC : Char := Char.ofNat 39

/-- Builds one tier-prefix string of `prefixes_to_strip`, e.g. `Elder + apostrophe + s + space`. -/
def mkPfx (base : List Char) : String :=
  String.mk (base ++ [aposC, 's', ' '])

/-- The `prefixes_to_strip` list of `_initialize_item_database`. -/
def prefixes_to_strip : List String :=
  [mkPfx ['E', 'l', 'd', 'e', 'r'],
   mkPfx ['G', 'r', 'a', 'n', 'd', 'm', 'a', 's', 't', 'e', 'r'],
   mkPfx ['M', 'a', 's', 't', 'e', 'r'],
   mkPfx ['E', 'x', 'p', 'e', 'r', 't'],
   mkPfx ['A', 'd', 'e', 'p', 't'],
   mkPfx ['J', 'o', 'u', 'r', 'n', 'e', 'y', 'm', 'a', 'n'],
   mkPfx ['N', 'o', 'v', 'i', 'c', 'e']]

/-- The inner prefix loop with `break`: strip the first matching prefix. -/
def stripBasePfx (name : String) : String :=
  match prefixes_to_strip.find? (fun p => name.startsWith p) with
  | some p => name.drop p.length
  | none => name

/-- `_initialize_item_database`: when the `items` collection holds fewer
than 1000 documents, rebuild it from the fetched dump (a raised download
error is caught, leaving the database unchanged).  `registered_players`
and `processed_events` are never touched. -/
def initialize_item_database (db? : Option DB)
    (fetched : Option (List RawItem)) : Option DB :=
  match db? with
  | none => none
  | some d =>
    if d.items.length < 1000 then
      match fetched with
      | none => some d
      | some allItems =>
        let items_to_insert := allItems.filterMap (fun it =>
          match it.LocalizedNameEN, it.UniqueName with
          | some fn, some un =>
            if fn.isEmpty || un.isEmpty then none
            else some ⟨un, fn, stripBasePfx fn⟩
          | _, _ => none)
        if items_to_insert.isEmpty then some d
        else some { d with items := items_to_insert }
    else some d

/-- Python `str.lower()` (ASCII range, which covers the characters the
parser inspects). -/
def pyLower (s : List Char) : List Char := s.map Char.toLower

/-- Python whitespace as used by `str.strip()` (ASCII part). -/
def isPySpace (c : Char) : Bool :=
  c = ' ' || c = '\t' || c = '\n' || c = '\r' || c = '\x0b' || c = '\x0c'

/-- Python `str.strip()`: drop whitespace at both ends. -/
def pyStrip (s : List Char) : List Char :=
  ((s.dropWhile isPySpace).reverse.dropWhile isPySpace).reverse

/-- The character class `[1-8]` of the tier regex. -/
def isTierDigit (c : Char) : Bool := 49 ≤ c.toNat && c.toNat ≤ 56

/-- The character class `[1-4]` of the enchantment group. -/
def isEnchDigit (c : Char) : Bool := 49 ≤ c.toNat && c.toNat ≤ 52

/-- Numeric value of an ASCII digit (Python `int(...)` on one digit). -/
def charDigit (c : Char) : Nat := c.toNat - 48

/-- Attempt to match `t([1-8])(\.[1-4])?` at the head of the suffix,
greedily taking the optional group; returns the tier digit, the optional
enchantment digit, and the matched text `group(0)`. -/
def tierHere : List Char → Option (Char × Option Char × List Char)
  | c :: d :: rest =>
    if (c == 't') && isTierDigit d then
      match rest with
      | dot :: e :: _ =>
        if (dot == '.') && isEnchDigit e then some (d, some e, ['t', d, '.', e])
        else some (d, none, ['t', d])
      | _ => some (d, none, ['t', d])
    else none
  | _ => none

/-- `re.search(r't([1-8])(\.[1-4])?', query)`: the leftmost position at
which the pattern matches. -/
def reSearchTier : List Char → Option (Char × Option Char × List Char)
  | [] => none
  | c :: cs =>
    match tierHere (c :: cs) with
    | some m => some m
    | none => reSearchTier cs

/-- Fuel-driven worker for `replaceAll`; the fuel is an upper bound on the
input length, so the zero-fuel branch is never reached in `replaceAll`. -/
def replaceAllAux (pat : List Char) : Nat → List Char → List Char
  | _, [] => []
  | 0, s => s
  | Nat.succ n, c :: cs =>
    if pat.isPrefixOf (c :: cs) && !pat.isEmpty then
      replaceAllAux pat n (List.drop (pat.length - 1) cs)
    else
      c :: replaceAllAux pat n cs

/-- Python `str.replace(pat, "")` for a non-empty pattern: delete every
non-overlapping occurrence, scanning left to right. -/
def replaceAll (pat s : List Char) : List Char :=
  replaceAllAux pat s.length s

/-- Python substring test `pat in s`. -/
def hasSubstr (pat : List Char) : List Char → Bool
  | [] => pat.isEmpty
  | c :: cs => pat.isPrefixOf (c :: cs) || hasSubstr pat cs

/-- The `quality_map` dictionary in its Python 3.7+ iteration order. -/
def quality_map : List (List Char × Nat) :=
  [("normal".toList, 1), ("good".toList, 2), ("outstanding".toList, 3),
   ("excellent".toList, 4), ("masterpiece".toList, 5)]

/-- Python `str.capitalize()` on an already-lowercase word. -/
def pyCapitalize : List Char → List Char
  | [] => []
  | c :: cs => Char.toUpper c :: cs.map Char.toLower

/-- The record `parse_item_query` returns. -/
structure ParsedQuery where
  base_name : List Char
  tier : Option Nat
  enchantment : Nat
  quality_name : Option (List Char)
  quality_num : Option Nat
deriving DecidableEq

/-- The quality-word loop of `parse_item_query`: the first table entry
whose name occurs in the query is taken and its text deleted. -/
def qualityStep (q : List Char) (tier : Option Nat) (ench : Nat) : ParsedQuery :=
  match quality_map.find? (fun p => hasSubstr p.1 q) with
  | none => ⟨q, tier, ench, none, none⟩
  | some p => ⟨pyStrip (replaceAll p.1 q), tier, ench,
               some (pyCapitalize p.1), some p.2⟩

/-- The tier phase of `parse_item_query` applied to the lowered query:
delete the matched tier text and strip, or leave the query unchanged. -/
def tierStep (q1 : List Char) : List Char :=
  match reSearchTier q1 with
  | none => q1
  | some m => pyStrip (replaceAll m.2.2 q1)

/-- `parse_item_query`: lower the query, extract tier/enchantment via the
regex, delete the matched text, then extract and delete a quality word. -/
def parse_item_query (query : String) : ParsedQuery :=
  let q1 := pyLower query.toList
  match reSearchTier q1 with
  | none => qualityStep q1 none 0
  | some m =>
    let ench := match m.2.1 with
      | some e => charDigit e
      | none => 0
    qualityStep (pyStrip (replaceAll m.2.2 q1)) (some (charDigit m.1)) ench

/-- The quality deletion applied to the post-tier query, viewed on its own. -/
def qualityErase (q : List Char) : List Char :=
  match quality_map.find? (fun p => hasSubstr p.1 q) with
  | none => q
  | some p => pyStrip (replaceAll p.1 q)

/-- Modelled from the spec (section 4.1 Classify), for comparison with the
code: an event is a kill for player p iff the killer's id is p's id,
otherwise a death. -/
def classify_spec (e : Event) (p : RegisteredPlayer) : String :=
  if e.Killer.Id = p.player_data.Id then "kill" else "death"

/- Concrete data used by counterexamples and witnesses. -/

def w1Event : Event :=
  ⟨PyVal.str "A", ⟨42, "X", some "G", none⟩, ⟨99, "Y", none, none⟩, [], 1000,
   "2024-01-01T00:00:00Z"⟩

def w1Player : RegisteredPlayer := ⟨1, ⟨42, "X"⟩⟩

def w1DB : DB := ⟨[w1Player], [], []⟩

def w1Cfg : BotConfig := ⟨some w1DB, some 5, fun _ => some 5⟩

def w1Fetch : Nat → List Event := fun pid => if pid = 42 then [w1Event] else []

/-- The event source of the witness tick, every fetch answering 200. -/
def w1Src : Nat → FetchResult := fun pid => FetchResult.ok (w1Fetch pid)

/-- All events a tick sees when every fetch succeeds: the concatenation of
the per-player pages, in registry order. -/
def fetchedOf (f : Nat → List Event) (ps : List RegisteredPlayer) : List Event :=
  (ps.map (fun p => f p.player_data.Id)).flatten

def c3EventA : Event :=
  ⟨PyVal.str "EA", ⟨10, "A", none, none⟩, ⟨11, "B", none, none⟩, [], 5, "ts"⟩

def c3PlayerA : RegisteredPlayer := ⟨1, ⟨10, "A"⟩⟩

def c3PlayerB : RegisteredPlayer := ⟨2, ⟨20, "Bo"⟩⟩

def c3Src : Nat → FetchResult :=
  fun pid => if pid = 10 then FetchResult.ok [c3EventA] else FetchResult.raised

def c3DB : DB := ⟨[c3PlayerA, c3PlayerB], [], []⟩

def c3Cfg : BotConfig := ⟨some c3DB, some 7, fun _ => some 7⟩

def c4Event : Event :=
  ⟨PyVal.str "E42", ⟨42, "X", none, none⟩, ⟨7, "Y", none, none⟩, [], 100, "ts"⟩

def c4Killer : RegisteredPlayer := ⟨1, ⟨42, "X"⟩⟩

def c4Victim : RegisteredPlayer := ⟨2, ⟨7, "Y"⟩⟩

def c4Src : Nat → FetchResult := fun _ => FetchResult.ok [c4Event]

def c5Event : Event :=
  ⟨PyVal.str "S", ⟨42, "K", none, none⟩, ⟨7, "V", none, none⟩, [], 1, "t"⟩

def c5K : RegisteredPlayer := ⟨1, ⟨42, "K"⟩⟩

def c5V : RegisteredPlayer := ⟨2, ⟨7, "V"⟩⟩

def c5DB : DB := ⟨[c5K, c5V], [], []⟩

def c5Cfg : BotConfig := ⟨some c5DB, some 9, fun _ => some 9⟩

def c5Src : Nat → FetchResult := fun _ => FetchResult.ok [c5Event]

def c6Cfg : BotConfig := ⟨none, some 3, fun _ => some 3⟩

def c6Src : Nat → FetchResult := fun _ => FetchResult.ok []

def c7pdA : PlayerData := ⟨42, "Alice"⟩

def c7pdB : PlayerData := ⟨43, "Bob"⟩

def c7List : List RegisteredPlayer := [⟨1, c7pdA⟩]

def c8Event : Event :=
  ⟨PyVal.str "W8", ⟨1, "k", none, none⟩, ⟨2, "v", none, none⟩, [], 0, "t"⟩

def c8DB : DB := ⟨[⟨1, ⟨1, "k"⟩⟩], [], []⟩

def c8Cfg : BotConfig := ⟨some c8DB, some 2, fun _ => some 2⟩

def c8Src : Nat → FetchResult := fun _ => FetchResult.ok [c8Event]

def c10EventNum : Event :=
  ⟨PyVal.num 5, ⟨1, "a", none, none⟩, ⟨2, "b", none, none⟩, [], 0, "t"⟩

def c10EventStr : Event :=
  ⟨PyVal.str "5", ⟨3, "c", none, none⟩, ⟨4, "d", none, none⟩, [], 0, "t"⟩

def c10Src : Nat → FetchResult := fun _ => FetchResult.ok []


/- Lemmas about the inner event loop. -/

theorem mkNotif_eventIdStr (e : Event) : (mkNotif e).eventIdStr = pyStr e.EventId := rfl

theorem processEvents_store_shape (evs : List Event) :
    ∀ store : List String,
      (processEvents store evs).2 =
        store ++ (processEvents store evs).1.map Notif.eventIdStr := by
  induction evs with
  | nil => intro store; simp [processEvents]
  | cons e rest ih =>
    intro store
    by_cases h : pyStr e.EventId ∈ store
    · simpa [processEvents, h] using ih store
    · simp only [processEvents, h, if_false, if_neg h]
      rw [ih (store ++ [pyStr e.EventId])]
      simp [mkNotif_eventIdStr]

theorem processEvents_notifs_fresh (evs : List Event) :
    ∀ store : List String, ∀ n ∈ (processEvents store evs).1,
      n.eventIdStr ∉ store := by
  induction evs with
  | nil => intro store n hn; simp [processEvents] at hn
  | cons e rest ih =>
    intro store n hn
    by_cases h : pyStr e.EventId ∈ store
    · exact ih store n (by simpa [processEvents, h] using hn)
    · simp only [processEvents, if_neg h] at hn
      rcases (List.mem_cons).1 hn with h1 | h2
      · subst h1; simpa [mkNotif_eventIdStr] using h
      · intro hmem
        exact ih (store ++ [pyStr e.EventId]) n h2
          (List.mem_append_left _ hmem)

theorem processEvents_ids_nodup (evs : List Event) :
    ∀ store : List String,
      ((processEvents store evs).1.map Notif.eventIdStr).Nodup := by
  induction evs with
  | nil => intro store; simp [processEvents]
  | cons e rest ih =>
    intro store
    by_cases h : pyStr e.EventId ∈ store
    · simpa [processEvents, h] using ih store
    · simp only [processEvents, if_neg h, List.map_cons, List.nodup_cons]
      refine ⟨?_, ih (store ++ [pyStr e.EventId])⟩
      intro hmem
      rcases List.mem_map.1 hmem with ⟨n, hn, hid⟩
      have := processEvents_notifs_fresh rest (store ++ [pyStr e.EventId]) n hn
      exact this (by
        rw [hid, mkNotif_eventIdStr]
        exact List.mem_append_right _ (List.mem_singleton.2 rfl))

theorem processEvents_mem_store (evs : List Event) :
    ∀ store : List String, ∀ e ∈ evs,
      pyStr e.EventId ∈ (processEvents store evs).2 := by
  induction evs with
  | nil => intro store e he; simp at he
  | cons e rest ih =>
    intro store e' he'
    by_cases h : pyStr e.EventId ∈ store
    · rcases (List.mem_cons).1 he' with h1 | h2
      · subst h1
        rw [processEvents_store_shape]
        simp only [processEvents, if_pos h]
        exact List.mem_append_left _ h
      · simpa [processEvents, h] using ih store e' h2
    · simp only [processEvents, if_neg h]
      rcases (List.mem_cons).1 he' with h1 | h2
      · subst h1
        rw [processEvents_store_shape]
        exact List.mem_append_left _
          (List.mem_append_right _ (List.mem_singleton.2 rfl))
      · exact ih (store ++ [pyStr e.EventId]) e' h2

theorem processEvents_allSeen (evs : List Event) :
    ∀ store : List String, (∀ e ∈ evs, pyStr e.EventId ∈ store) →
      processEvents store evs = ([], store) := by
  induction evs with
  | nil => intro store _; rfl
  | cons e rest ih =>
    intro store hall
    have h : pyStr e.EventId ∈ store := hall e (List.mem_cons_self e rest)
    simp only [processEvents, if_pos h]
    exact ih store (fun e' he' => hall e' (List.mem_cons_of_mem e he'))

theorem processEvents_notifs_from (evs : List Event) :
    ∀ store : List String, ∀ n ∈ (processEvents store evs).1,
      ∃ e ∈ evs, n = mkNotif e := by
  induction evs with
  | nil => intro store n hn; simp [processEvents] at hn
  | cons e rest ih =>
    intro store n hn
    by_cases h : pyStr e.EventId ∈ store
    · rcases ih store n (by simpa [processEvents, h] using hn) with ⟨e', he', heq⟩
      exact ⟨e', List.mem_cons_of_mem e he', heq⟩
    · simp only [processEvents, if_neg h] at hn
      rcases (List.mem_cons).1 hn with h1 | h2
      · exact ⟨e, List.mem_cons_self e rest, h1⟩
      · rcases ih (store ++ [pyStr e.EventId]) n h2 with ⟨e', he', heq⟩
        exact ⟨e', List.mem_cons_of_mem e he', heq⟩

theorem processEvents_fresh_spec (evs : List Event) :
    ∀ store : List String,
      ((evs.map fun e => pyStr e.EventId).Nodup) →
      (∀ e ∈ evs, pyStr e.EventId ∉ store) →
      processEvents store evs =
        (evs.map mkNotif, store ++ evs.map fun e => pyStr e.EventId) := by
  induction evs with
  | nil => intro store _ _; simp [processEvents]
  | cons e rest ih =>
    intro store hnd hfresh
    have h : pyStr e.EventId ∉ store := hfresh e (List.mem_cons_self e rest)
    simp only [processEvents, if_neg h]
    rw [ih (store ++ [pyStr e.EventId])
      (by simpa [List.nodup_cons] using hnd.of_cons)
      (by
        intro e' he'
        simp only [List.mem_append, List.mem_singleton]
        rintro (hc | hc)
        · exact hfresh e' (List.mem_cons_of_mem e he') hc
        · have : pyStr e.EventId ∉ rest.map fun e => pyStr e.EventId :=
            (List.nodup_cons.1 (by simpa using hnd)).1
          exact this (hc ▸ List.mem_map_of_mem _ he'))]
    simp

/- Lemmas about the player loop. -/

theorem runPlayers_store_shape (src : Nat → FetchResult)
    (ps : List RegisteredPlayer) :
    ∀ store : List String,
      (runPlayers src store ps).store =
        store ++ (runPlayers src store ps).notifs.map Notif.eventIdStr := by
  induction ps with
  | nil => intro store; simp [runPlayers]
  | cons p ps ih =>
    intro store
    rcases hf : get_player_events src p.player_data.Id with _ | evs
    · simp [runPlayers, hf]
    · simp only [runPlayers, hf]
      rw [ih (processEvents store evs).2, processEvents_store_shape]
      simp [List.append_assoc]

theorem runPlayers_notifs_fresh (src : Nat → FetchResult)
    (ps : List RegisteredPlayer) :
    ∀ store : List String, ∀ n ∈ (runPlayers src store ps).notifs,
      n.eventIdStr ∉ store := by
  induction ps with
  | nil => intro store n hn; simp [runPlayers] at hn
  | cons p ps ih =>
    intro store n hn
    rcases hf : get_player_events src p.player_data.Id with _ | evs
    · simp [runPlayers, hf] at hn
    · simp only [runPlayers, hf, List.mem_append] at hn
      rcases hn with h1 | h2
      · exact processEvents_notifs_fresh evs store n h1
      · intro hmem
        apply ih (processEvents store evs).2 n h2
        rw [processEvents_store_shape]
        exact List.mem_append_left _ hmem

theorem runPlayers_ids_nodup (src : Nat → FetchResult)
    (ps : List RegisteredPlayer) :
    ∀ store : List String,
      ((runPlayers src store ps).notifs.map Notif.eventIdStr).Nodup := by
  induction ps with
  | nil => intro store; simp [runPlayers]
  | cons p ps ih =>
    intro store
    rcases hf : get_player_events src p.player_data.Id with _ | evs
    · simp [runPlayers, hf]
    · simp only [runPlayers, hf, List.map_append]
      rw [List.nodup_append]
      refine ⟨processEvents_ids_nodup evs store, ih _, ?_⟩
      intro a ha hb
      rcases List.mem_map.1 hb with ⟨n2, hn2, hid2⟩
      apply runPlayers_notifs_fresh src ps (processEvents store evs).2 n2 hn2
      rw [processEvents_store_shape, hid2]
      exact List.mem_append_right _ ha

theorem runPlayers_notifs_from (src : Nat → FetchResult)
    (ps : List RegisteredPlayer) :
    ∀ store : List String, ∀ n ∈ (runPlayers src store ps).notifs,
      ∃ p ∈ ps, ∃ l, src p.player_data.Id = FetchResult.ok l ∧
        ∃ e ∈ l, n = mkNotif e := by
  induction ps with
  | nil => intro store n hn; simp [runPlayers] at hn
  | cons p ps ih =>
    intro store n hn
    rcases hf : get_player_events src p.player_data.Id with _ | evs
    · simp [runPlayers, hf] at hn
    · simp only [runPlayers, hf, List.mem_append] at hn
      rcases hn with h1 | h2
      · rcases processEvents_notifs_from evs store n h1 with ⟨e, he, heq⟩
        refine ⟨p, List.mem_cons_self p ps, evs, ?_, e, he, heq⟩
        revert hf
        unfold get_player_events
        rcases src p.player_data.Id with l | _ | _ <;> intro hf <;>
          simp_all
      · rcases ih (processEvents store evs).2 n h2 with ⟨q, hq, l, hl, hrest⟩
        exact ⟨q, List.mem_cons_of_mem p hq, l, hl, hrest⟩

theorem runPlayers_idem (src : Nat → FetchResult)
    (ps : List RegisteredPlayer) :
    ∀ store : List String,
      runPlayers src (runPlayers src store ps).store ps =
        ⟨[], (runPlayers src store ps).store, (runPlayers src store ps).raised⟩ := by
  induction ps with
  | nil => intro store; simp [runPlayers]
  | cons p ps ih =>
    intro store
    rcases hf : get_player_events src p.player_data.Id with _ | evs
    · simp [runPlayers, hf]
    · simp only [runPlayers, hf]
      have hseen : ∀ e ∈ evs,
          pyStr e.EventId ∈
            (runPlayers src (processEvents store evs).2 ps).store := by
        intro e he
        rw [runPlayers_store_shape]
        exact List.mem_append_left _ (processEvents_mem_store evs store e he)
      simp [processEvents_allSeen evs _ hseen, ih (processEvents store evs).2]

/- Lemmas about one tick and about tick sequences. -/

theorem check_store_shape (cfg : BotConfig) (src : Nat → FetchResult) :
    storeOf (check_player_events cfg src).1 =
      storeOf cfg.db ++
        ((check_player_events cfg src).2.1).map Notif.eventIdStr := by
  rcases hdb : cfg.db with _ | d
  · simp [check_player_events, hdb, storeOf]
  · rcases hc : cfg.killboardChannelId with _ | cid
    · simp [check_player_events, hdb, hc, storeOf]
    · by_cases h0 : cid = 0
      · simp [check_player_events, hdb, hc, h0, storeOf]
      · rcases hr : cfg.resolveChannel cid with _ | ch
        · simp [check_player_events, hdb, hc, h0, hr, storeOf]
        · simp [check_player_events, hdb, hc, h0, hr, storeOf,
            runPlayers_store_shape]

theorem check_db_eq (cfg : BotConfig) (src : Nat → FetchResult) :
    (check_player_events cfg src).1 =
      match cfg.db with
      | none => none
      | some d =>
        some { d with processed_events :=
          d.processed_events ++
            ((check_player_events cfg src).2.1).map Notif.eventIdStr } := by
  rcases hdb : cfg.db with _ | d
  · simp [check_player_events, hdb]
  · rcases hc : cfg.killboardChannelId with _ | cid
    · simp [check_player_events, hdb, hc]
    · by_cases h0 : cid = 0
      · simp [check_player_events, hdb, hc, h0]
      · rcases hr : cfg.resolveChannel cid with _ | ch
        · simp [check_player_events, hdb, hc, h0, hr]
        · simp [check_player_events, hdb, hc, h0, hr,
            runPlayers_store_shape]

theorem check_notifs_fresh (cfg : BotConfig) (src : Nat → FetchResult) :
    ∀ n ∈ (check_player_events cfg src).2.1, n.eventIdStr ∉ storeOf cfg.db := by
  rcases hdb : cfg.db with _ | d
  · simp [check_player_events, hdb]
  · rcases hc : cfg.killboardChannelId with _ | cid
    · simp [check_player_events, hdb, hc]
    · by_cases h0 : cid = 0
      · simp [check_player_events, hdb, hc, h0]
      · rcases hr : cfg.resolveChannel cid with _ | ch
        · simp [check_player_events, hdb, hc, h0, hr]
        · intro n hn
          simp only [check_player_events, hdb, hc, h0, if_neg h0, hr] at hn
          simpa [storeOf] using
            runPlayers_notifs_fresh src d.registered_players
              d.processed_events n hn

theorem check_ids_nodup (cfg : BotConfig) (src : Nat → FetchResult) :
    (((check_player_events cfg src).2.1).map Notif.eventIdStr).Nodup := by
  rcases hdb : cfg.db with _ | d
  · simp [check_player_events, hdb]
  · rcases hc : cfg.killboardChannelId with _ | cid
    · simp [check_player_events, hdb, hc]
    · by_cases h0 : cid = 0
      · simp [check_player_events, hdb, hc, h0]
      · rcases hr : cfg.resolveChannel cid with _ | ch
        · simp [check_player_events, hdb, hc, h0, hr]
        · simp only [check_player_events, hdb, hc, h0, if_neg h0, hr]
          exact runPlayers_ids_nodup src d.registered_players d.processed_events

theorem runTicks_store_shape (srcs : List (Nat → FetchResult)) :
    ∀ cfg : BotConfig,
      storeOf (runTicks cfg srcs).1 =
        storeOf cfg.db ++ (runTicks cfg srcs).2.map Notif.eventIdStr := by
  induction srcs with
  | nil => intro cfg; simp [runTicks]
  | cons src rest ih =>
    intro cfg
    simp only [runTicks]
    rw [ih { cfg with db := (check_player_events cfg src).1 }]
    show storeOf (check_player_events cfg src).1 ++ _ = _
    rw [check_store_shape]
    simp [List.append_assoc]

theorem runTicks_notifs_fresh (srcs : List (Nat → FetchResult)) :
    ∀ cfg : BotConfig, ∀ n ∈ (runTicks cfg srcs).2,
      n.eventIdStr ∉ storeOf cfg.db := by
  induction srcs with
  | nil => intro cfg n hn; simp [runTicks] at hn
  | cons src rest ih =>
    intro cfg n hn
    simp only [runTicks, List.mem_append] at hn
    rcases hn with h1 | h2
    · exact check_notifs_fresh cfg src n h1
    · intro hmem
      apply ih { cfg with db := (check_player_events cfg src).1 } n h2
      show n.eventIdStr ∈ storeOf (check_player_events cfg src).1
      rw [check_store_shape]
      exact List.mem_append_left _ hmem

theorem runTicks_ids_nodup (srcs : List (Nat → FetchResult)) :
    ∀ cfg : BotConfig, ((runTicks cfg srcs).2.map Notif.eventIdStr).Nodup := by
  induction srcs with
  | nil => intro cfg; simp [runTicks]
  | cons src rest ih =>
    intro cfg
    simp only [runTicks, List.map_append]
    rw [List.nodup_append]
    refine ⟨check_ids_nodup cfg src,
      ih { cfg with db := (check_player_events cfg src).1 }, ?_⟩
    intro a ha hb
    rcases List.mem_map.1 hb with ⟨n2, hn2, hid2⟩
    apply runTicks_notifs_fresh rest
      { cfg with db := (check_player_events cfg src).1 } n2 hn2
    show n2.eventIdStr ∈ storeOf (check_player_events cfg src).1
    rw [check_store_shape, hid2]
    exact List.mem_append_right _ ha

/- Error-isolation lemmas for the player loop. -/

theorem runPlayers_noRaise (src : Nat → FetchResult)
    (ps : List RegisteredPlayer)
    (h : ∀ p ∈ ps, src p.player_data.Id ≠ FetchResult.raised) :
    ∀ store : List String, (runPlayers src store ps).raised = false := by
  induction ps with
  | nil => intro store; rfl
  | cons p ps ih =>
    intro store
    rcases hs : src p.player_data.Id with l | _ | _
    · simp only [runPlayers, get_player_events, hs]
      exact ih (fun q hq => h q (List.mem_cons_of_mem p hq)) _
    · simp only [runPlayers, get_player_events, hs]
      exact ih (fun q hq => h q (List.mem_cons_of_mem p hq)) _
    · exact absurd hs (h p (List.mem_cons_self p ps))

theorem runPlayers_append (src : Nat → FetchResult)
    (ps1 ps2 : List RegisteredPlayer) :
    ∀ store : List String, (runPlayers src store ps1).raised = false →
      runPlayers src store (ps1 ++ ps2) =
        ⟨(runPlayers src store ps1).notifs ++
           (runPlayers src (runPlayers src store ps1).store ps2).notifs,
         (runPlayers src (runPlayers src store ps1).store ps2).store,
         (runPlayers src (runPlayers src store ps1).store ps2).raised⟩ := by
  induction ps1 with
  | nil => intro store _; simp [runPlayers]
  | cons p ps1 ih =>
    intro store hr
    rcases hs : src p.player_data.Id with l | _ | _
    · simp only [runPlayers, get_player_events, hs, List.cons_append,
        List.append_eq] at hr ⊢
      rw [ih _ hr]
      simp [List.append_assoc]
    · simp only [runPlayers, get_player_events, hs, List.cons_append,
        List.append_eq] at hr ⊢
      rw [ih _ hr]
      simp [List.append_assoc]
    · simp [runPlayers, get_player_events, hs] at hr

theorem runPlayers_raised_head (src : Nat → FetchResult)
    (pB : RegisteredPlayer) (ps2 : List RegisteredPlayer)
    (hB : src pB.player_data.Id = FetchResult.raised) (store : List String) :
    runPlayers src store (pB :: ps2) = ⟨[], store, true⟩ := by
  simp [runPlayers, get_player_events, hB]

/- Registry lemmas. -/

theorem setFirst_keys (k : Nat) (v : PlayerData) :
    ∀ l : List RegisteredPlayer,
      (setFirst k v l).map RegisteredPlayer.ownerId =
        l.map RegisteredPlayer.ownerId := by
  intro l
  induction l with
  | nil => rfl
  | cons p ps ih =>
    by_cases h : p.ownerId = k
    · simp [setFirst, h]
    · simp [setFirst, h, ih]

theorem setFirst_find? (k : Nat) (v : PlayerData) :
    ∀ l : List RegisteredPlayer, (l.any fun p => p.ownerId == k) = true →
      (setFirst k v l).find? (fun p => p.ownerId == k) = some ⟨k, v⟩ := by
  intro l
  induction l with
  | nil => intro h; simp at h
  | cons p ps ih =>
    intro h
    by_cases hk : p.ownerId = k
    · subst hk
      simp [setFirst, List.find?_cons_of_pos]
    · have h' : (ps.any fun p => p.ownerId == k) = true := by
        simpa [List.any_cons, hk] using h
      simp [setFirst, hk, List.find?_cons_of_neg, ih h']

theorem find?_append_absent (k : Nat) (v : PlayerData) :
    ∀ l : List RegisteredPlayer, (l.any fun p => p.ownerId == k) = false →
      ((l ++ [(⟨k, v⟩ : RegisteredPlayer)]).find? (fun p => p.ownerId == k)) =
        some ⟨k, v⟩ := by
  intro l
  induction l with
  | nil => intro _; simp [List.find?]
  | cons p ps ih =>
    intro h
    rw [List.any_cons, Bool.or_eq_false_iff] at h
    rw [List.cons_append, List.find?_cons_of_neg _ (by simp [h.1]), ih h.2]

theorem keys_nodup_filter_le (k : Nat) :
    ∀ l : List RegisteredPlayer, (l.map RegisteredPlayer.ownerId).Nodup →
      (l.filter fun p => p.ownerId == k).length ≤ 1 := by
  intro l
  induction l with
  | nil => intro _; simp
  | cons p ps ih =>
    intro h
    rw [List.map_cons, List.nodup_cons] at h
    by_cases hk : p.ownerId = k
    · have hnil : (ps.filter fun q => q.ownerId == k) = [] := by
        apply List.filter_eq_nil_iff.2
        intro q hq
        simp only [beq_iff_eq]
        intro hqk
        apply h.1
        rw [hk, ← hqk]
        exact List.mem_map_of_mem _ hq
      simp [List.filter_cons, hk, hnil]
    · simpa [List.filter_cons, hk] using ih h.2

/- Fresh-event tick lemma. -/

theorem runPlayers_fetch_spec (f : Nat → List Event) (ps : List RegisteredPlayer) :
    ∀ store : List String,
      ((fetchedOf f ps).map fun e => pyStr e.EventId).Nodup →
      (∀ e ∈ fetchedOf f ps, pyStr e.EventId ∉ store) →
      runPlayers (fun pid => FetchResult.ok (f pid)) store ps =
        ⟨(fetchedOf f ps).map mkNotif,
         store ++ (fetchedOf f ps).map fun e => pyStr e.EventId, false⟩ := by
  induction ps with
  | nil => intro store _ _; simp [runPlayers, fetchedOf]
  | cons p ps ih =>
    intro store hnd hfresh
    have hsplit : fetchedOf f (p :: ps) = f p.player_data.Id ++ fetchedOf f ps := by
      simp [fetchedOf]
    rw [hsplit] at hnd hfresh
    rw [List.map_append, List.nodup_append] at hnd
    simp only [runPlayers, get_player_events]
    rw [processEvents_fresh_spec (f p.player_data.Id) store hnd.1
      (fun e he => hfresh e (List.mem_append_left _ he))]
    rw [ih (store ++ (f p.player_data.Id).map fun e => pyStr e.EventId)
      hnd.2.1
      (by
        intro e he
        simp only [List.mem_append]
        rintro (hc | hc)
        · exact hfresh e (List.mem_append_right _ he) hc
        · exact hnd.2.2 hc (List.mem_map_of_mem _ he))]
    simp [hsplit, List.append_assoc]

/- Parser lemmas. -/

theorem tierHere_shape (s : List Char) (d : Char) (e? : Option Char)
    (m : List Char) (h : tierHere s = some (d, e?, m)) :
    isTierDigit d = true ∧ ∀ e, e? = some e → isEnchDigit e = true := by
  rcases s with _ | ⟨c, _ | ⟨d', rest⟩⟩
  · simp [tierHere] at h
  · simp [tierHere] at h
  · by_cases hc : ((c == 't') && isTierDigit d') = true
    · have hc' : c = 't' ∧ isTierDigit d' = true := by simpa using hc
      rcases rest with _ | ⟨dot, _ | ⟨e, tail⟩⟩
      · simp only [tierHere, if_pos hc] at h
        rcases h with ⟨rfl, rfl, rfl⟩
        exact ⟨hc'.2, by intro e he; cases he⟩
      · simp only [tierHere, if_pos hc] at h
        rcases h with ⟨rfl, rfl, rfl⟩
        exact ⟨hc'.2, by intro e he; cases he⟩
      · by_cases hd : ((dot == '.') && isEnchDigit e) = true
        · have hd' : dot = '.' ∧ isEnchDigit e = true := by simpa using hd
          simp only [tierHere, if_pos hc, if_pos hd] at h
          rcases h with ⟨rfl, rfl, rfl⟩
          refine ⟨hc'.2, ?_⟩
          intro e' he'
          cases he'
          exact hd'.2
        · simp only [tierHere, if_pos hc, if_neg hd] at h
          rcases h with ⟨rfl, rfl, rfl⟩
          exact ⟨hc'.2, by intro e' he'; cases he'⟩
    · simp [tierHere, hc] at h

theorem reSearchTier_shape (s : List Char) :
    ∀ d e? m, reSearchTier s = some (d, e?, m) →
      isTierDigit d = true ∧ ∀ e, e? = some e → isEnchDigit e = true := by
  induction s with
  | nil => intro d e? m h; simp [reSearchTier] at h
  | cons c cs ih =>
    intro d e? m h
    rcases ht : tierHere (c :: cs) with _ | m'
    · rw [reSearchTier, ht] at h
      exact ih d e? m h
    · rw [reSearchTier, ht] at h
      rcases h with ⟨rfl⟩
      exact tierHere_shape (c :: cs) d e? m ht

theorem isTierDigit_range (c : Char) (h : isTierDigit c = true) :
    1 ≤ charDigit c ∧ charDigit c ≤ 8 := by
  have h' : 49 ≤ c.toNat ∧ c.toNat ≤ 56 := by simpa [isTierDigit] using h
  unfold charDigit
  omega

theorem isEnchDigit_range (c : Char) (h : isEnchDigit c = true) :
    1 ≤ charDigit c ∧ charDigit c ≤ 4 := by
  have h' : 49 ≤ c.toNat ∧ c.toNat ≤ 52 := by simpa [isEnchDigit] using h
  unfold charDigit
  omega

theorem quality_map_range (w : List Char) (n : Nat)
    (h : (w, n) ∈ quality_map) : 1 ≤ n ∧ n ≤ 5 := by
  simp only [quality_map, List.mem_cons, List.mem_singleton, Prod.mk.injEq,
    List.not_mem_nil, or_false] at h
  rcases h with ⟨_, rfl⟩ | ⟨_, rfl⟩ | ⟨_, rfl⟩ | ⟨_, rfl⟩ | ⟨_, rfl⟩ <;> omega

/- Claim theorems. -/

/-- C2: running the poller tick twice in succession on the same fetched
event lists, with no reset of the seen-event store in between, makes the
second tick emit zero notifications (every event is already seen and
recorded by the first tick) and leaves the database unchanged. -/
theorem c2_second_tick_silent (cfg : BotConfig) (src : Nat → FetchResult) :
    check_player_events { cfg with db := (check_player_events cfg src).1 } src =
      ((check_player_events cfg src).1, [], (check_player_events cfg src).2.2) := by
  rcases hdb : cfg.db with _ | d
  · simp [check_player_events, hdb]
  · rcases hc : cfg.killboardChannelId with _ | cid
    · simp [check_player_events, hdb, hc]
    · by_cases h0 : cid = 0
      · simp [check_player_events, hdb, hc, h0]
      · rcases hr : cfg.resolveChannel cid with _ | ch
        · simp [check_player_events, hdb, hc, h0, hr]
        · simp [check_player_events, hdb, hc, h0, hr, runPlayers_idem]

/-- C4 counterexample: for the event with killer id 42 and victim id 7, the
spec classification differs between the tracked killer (kill) and the
tracked victim (death), yet the notification the loop builds is the same
for both players — its title says "X killed Y" either way, so the emitted
notification does not reflect a per-player classification. -/
theorem c4_counterexample :
    classify_spec c4Event c4Victim = "death"
    ∧ classify_spec c4Event c4Killer = "kill"
    ∧ classify_spec c4Event c4Victim ≠ classify_spec c4Event c4Killer
    ∧ mkNotifFor c4Victim c4Event = mkNotifFor c4Killer c4Event
    ∧ (runPlayers c4Src [] [c4Victim]).notifs = [mkNotifFor c4Victim c4Event]
    ∧ (runPlayers c4Src [] [c4Killer]).notifs = [mkNotifFor c4Killer c4Event]
    ∧ (mkNotifFor c4Victim c4Event).title = "X killed Y" := by
  refine ⟨rfl, rfl, by decide, rfl, rfl, rfl, rfl⟩

/-- C4 amended: the poller performs no per-player kill/death
classification; the notification built in the loop body depends only on the
event, and its title is always the killer's name, " killed ", then the
victim's name, regardless of which tracked player's fetch produced it. -/
theorem c4_amended_notification_independent
    (p p' : RegisteredPlayer) (e : Event) :
    mkNotifFor p e = mkNotifFor p' e
    ∧ (mkNotifFor p e).title = e.Killer.Name ++ " killed " ++ e.Victim.Name :=
  ⟨rfl, rfl⟩

/-- C5: the seen-event store is keyed solely by the event id string, so
over any sequence of ticks each event id is emitted at most once — the
notification id strings are pairwise distinct; concretely, when two tracked
players both surface the same event in one tick, only the first player's
encounter emits a notification. -/
theorem c5_at_most_one_notification_per_event_id
    (cfg : BotConfig) (srcs : List (Nat → FetchResult)) :
    (((runTicks cfg srcs).2).map Notif.eventIdStr).Nodup
    ∧ (check_player_events c5Cfg c5Src).2.1 = [mkNotif c5Event] :=
  ⟨runTicks_ids_nodup srcs cfg, rfl⟩

/-- C6: when the database handle is None, or the killboard channel id is
unset, or the channel cannot be resolved, the tick performs no work: no
notifications, no store writes, no exception. -/
theorem c6_disabled_tick_does_nothing (cfg : BotConfig) (src : Nat → FetchResult)
    (h : cfg.db = none ∨ cfg.killboardChannelId = none ∨
      ∃ cid, cfg.killboardChannelId = some cid ∧ cfg.resolveChannel cid = none) :
    check_player_events cfg src = (cfg.db, [], false) := by
  rcases h with h | h | ⟨cid, hc, hr⟩
  · simp [check_player_events, h]
  · rcases hdb : cfg.db with _ | d
    · simp [check_player_events, hdb]
    · simp [check_player_events, hdb, h]
  · rcases hdb : cfg.db with _ | d
    · simp [check_player_events, hdb]
    · by_cases h0 : cid = 0
      · simp [check_player_events, hdb, hc, h0]
      · simp [check_player_events, hdb, hc, h0, hr]

/-- C6 witness: the do-nothing guarantee at a concrete configuration whose
database handle is None. -/
theorem c6_witness :
    c6Cfg.db = none ∧ check_player_events c6Cfg c6Src = (none, [], false) :=
  ⟨rfl, c6_disabled_tick_does_nothing c6Cfg c6Src (Or.inl rfl)⟩

/-- C1: a tick whose fetches all succeed and return events with pairwise
distinct ids, none already in the seen-event store, emits exactly one
notification per fetched event (in fetch order) and afterwards the store
holds exactly the prior contents plus those event ids; no exception. -/
theorem c1_fresh_tick_exact (cfg : BotConfig) (f : Nat → List Event)
    (d : DB) (cid ch : Nat)
    (hdb : cfg.db = some d)
    (hcid : cfg.killboardChannelId = some cid)
    (h0 : cid ≠ 0)
    (hch : cfg.resolveChannel cid = some ch)
    (hnd : ((fetchedOf f d.registered_players).map fun e => pyStr e.EventId).Nodup)
    (hfresh : ∀ e ∈ fetchedOf f d.registered_players,
        pyStr e.EventId ∉ d.processed_events) :
    check_player_events cfg (fun pid => FetchResult.ok (f pid)) =
      (some { d with processed_events :=
          d.processed_events ++
            ((fetchedOf f d.registered_players).map fun e => pyStr e.EventId) },
       (fetchedOf f d.registered_players).map mkNotif, false)
    ∧ ((check_player_events cfg (fun pid => FetchResult.ok (f pid))).2.1).length =
        (fetchedOf f d.registered_players).length := by
  have hrun := runPlayers_fetch_spec f d.registered_players d.processed_events
    hnd hfresh
  constructor
  · simp [check_player_events, hdb, hcid, h0, hch, hrun]
  · simp [check_player_events, hdb, hcid, h0, hch, hrun]

/-- C1 witness: the exact-output guarantee evaluated on a one-player,
one-event configuration. -/
theorem c1_witness :
    check_player_events w1Cfg w1Src =
      (some ⟨[w1Player], ["A"], []⟩, [mkNotif w1Event], false) := by
  have h := c1_fresh_tick_exact w1Cfg w1Fetch w1DB 5 5 rfl rfl (by decide) rfl
    (by decide) (by decide)
  exact h.1.trans (by decide)

/-- C3 counterexample: with player A fetched first and player B's fetch
raising a network error, the tick does raise (it aborts instead of treating
B as zero events), even though A's notification was already emitted and
recorded — contradicting the claim that a raised error cannot abort the
tick. -/
theorem c3_counterexample :
    (check_player_events c3Cfg c3Src).2.2 = true
    ∧ (check_player_events c3Cfg c3Src).2.1 = [mkNotif c3EventA]
    ∧ storeOf (check_player_events c3Cfg c3Src).1 = [pyStr c3EventA.EventId] :=
  ⟨rfl, rfl, rfl⟩

/-- C3 amended: only a non-200 HTTP status is treated as "this player
yielded zero events" and lets the tick continue; a raised network error
aborts the tick at that player — but the notifications of the players
processed earlier in the iteration are still emitted and their event ids
recorded. -/
theorem c3_amended_fetch_failures (src : Nat → FetchResult)
    (store : List String) (ps1 ps2 : List RegisteredPlayer)
    (pB : RegisteredPlayer)
    (h1 : ∀ p ∈ ps1, src p.player_data.Id ≠ FetchResult.raised)
    (hB : src pB.player_data.Id = FetchResult.raised) :
    (runPlayers src store ps1).raised = false
    ∧ runPlayers src store (ps1 ++ pB :: ps2) =
        ⟨(runPlayers src store ps1).notifs,
         (runPlayers src store ps1).store, true⟩
    ∧ (∀ (q : RegisteredPlayer) (qs : List RegisteredPlayer)
        (st : List String),
        src q.player_data.Id = FetchResult.httpError →
        runPlayers src st (q :: qs) = runPlayers src st qs) := by
  have hr0 : (runPlayers src store ps1).raised = false :=
    runPlayers_noRaise src ps1 h1 store
  refine ⟨hr0, ?_, ?_⟩
  · rw [runPlayers_append src ps1 (pB :: ps2) store hr0,
      runPlayers_raised_head src pB ps2 hB]
    simp
  · intro q qs st hq
    simp [runPlayers, get_player_events, hq, processEvents]

/-- C3 amended witness: the amended guarantee evaluated with player A
succeeding and player B raising. -/
theorem c3_amended_witness :
    (runPlayers c3Src [] [c3PlayerA]).raised = false
    ∧ runPlayers c3Src [] ([c3PlayerA] ++ c3PlayerB :: []) =
        ⟨(runPlayers c3Src [] [c3PlayerA]).notifs,
         (runPlayers c3Src [] [c3PlayerA]).store, true⟩ :=
  ⟨(c3_amended_fetch_failures c3Src [] [c3PlayerA] [] c3PlayerB (by decide)
      (by decide)).1,
   (c3_amended_fetch_failures c3Src [] [c3PlayerA] [] c3PlayerB (by decide)
      (by decide)).2.1⟩

/-- C7: `register` upserts by owner id: on a registry with pairwise
distinct owner ids it keeps them distinct (at most one record per owner),
an already-registered owner gets its player binding replaced in place (same
length, same keys, new binding found), and a new owner appends exactly one
record. -/
theorem c7_registry_upsert (l : List RegisteredPlayer) (k : Nat)
    (v : PlayerData) (h : (l.map RegisteredPlayer.ownerId).Nodup) :
    ((update_one_upsert l k v).map RegisteredPlayer.ownerId).Nodup
    ∧ (∀ k', ((update_one_upsert l k v).filter
        fun p => p.ownerId == k').length ≤ 1)
    ∧ (update_one_upsert l k v).find? (fun p => p.ownerId == k) = some ⟨k, v⟩
    ∧ ((l.any fun p => p.ownerId == k) = true →
        (update_one_upsert l k v).length = l.length
        ∧ (update_one_upsert l k v).map RegisteredPlayer.ownerId =
            l.map RegisteredPlayer.ownerId)
    ∧ ((l.any fun p => p.ownerId == k) = false →
        update_one_upsert l k v = l ++ [⟨k, v⟩])
    ∧ (∀ d : DB, register (some d) k (some v) =
        some { d with registered_players :=
          update_one_upsert d.registered_players k v }) := by
  by_cases hany : (l.any fun p => p.ownerId == k) = true
  · have hup : update_one_upsert l k v = setFirst k v l := by
      simp [update_one_upsert, hany]
    have hkeys := setFirst_keys k v l
    have hnd : ((update_one_upsert l k v).map RegisteredPlayer.ownerId).Nodup := by
      rw [hup, hkeys]; exact h
    refine ⟨hnd, fun k' => keys_nodup_filter_le k' _ hnd, ?_, ?_, ?_, fun d => rfl⟩
    · rw [hup]; exact setFirst_find? k v l hany
    · intro _
      constructor
      · have := congrArg List.length hkeys
        simpa [hup] using this
      · rw [hup, hkeys]
    · intro hfalse
      rw [hany] at hfalse
      cases hfalse
  · have hfalse : (l.any fun p => p.ownerId == k) = false := by
      revert hany
      rcases l.any fun p => p.ownerId == k with _ | _ <;> simp
    have hup : update_one_upsert l k v = l ++ [⟨k, v⟩] := by
      simp [update_one_upsert, hfalse]
    have hknot : k ∉ l.map RegisteredPlayer.ownerId := by
      intro hk
      rcases List.mem_map.1 hk with ⟨p, hp, hpk⟩
      have := List.any_eq_false.1 hfalse p hp
      simp [hpk] at this
    have hnd : ((update_one_upsert l k v).map RegisteredPlayer.ownerId).Nodup := by
      rw [hup, List.map_append, List.nodup_append]
      refine ⟨h, by simp, ?_⟩
      intro a ha hb
      simp only [List.map_cons, List.map_nil, List.mem_singleton] at hb
      subst hb
      exact hknot ha
    refine ⟨hnd, fun k' => keys_nodup_filter_le k' _ hnd, ?_, ?_, fun _ => hup,
      fun d => rfl⟩
    · rw [hup]; exact find?_append_absent k v l hfalse
    · intro htrue
      rw [hfalse] at htrue
      cases htrue

/-- C7 witness: replacement for an existing owner and fresh insertion for a
new owner, on a singleton registry. -/
theorem c7_witness :
    (update_one_upsert c7List 1 c7pdB).find? (fun p => p.ownerId == 1) =
      some ⟨1, c7pdB⟩
    ∧ update_one_upsert c7List 2 c7pdB = c7List ++ [⟨2, c7pdB⟩] :=
  ⟨(c7_registry_upsert c7List 1 c7pdB (by decide)).2.2.1,
   (c7_registry_upsert c7List 2 c7pdB (by decide)).2.2.2.2.1 (by decide)⟩

/-- C8: the seen-event store only grows: over any sequence of ticks the
final store is the initial store extended by exactly the emitted ids (so a
superset of the initial contents), every id written was unseen at the start
and is written at emission time, and no other operation (`register`,
`unregister`, item database initialisation) ever touches the store. -/
theorem c8_store_only_grows (cfg : BotConfig)
    (srcs : List (Nat → FetchResult)) :
    storeOf (runTicks cfg srcs).1 =
      storeOf cfg.db ++ (runTicks cfg srcs).2.map Notif.eventIdStr
    ∧ (∀ kk ∈ storeOf cfg.db, kk ∈ storeOf (runTicks cfg srcs).1)
    ∧ (∀ n ∈ (runTicks cfg srcs).2, n.eventIdStr ∉ storeOf cfg.db)
    ∧ (∀ (db? : Option DB) (owner : Nat) (pd? : Option PlayerData),
        storeOf (register db? owner pd?) = storeOf db?)
    ∧ (∀ (db? : Option DB) (owner : Nat),
        storeOf (unregister db? owner).1 = storeOf db?)
    ∧ (∀ (db? : Option DB) (raw : Option (List RawItem)),
        storeOf (initialize_item_database db? raw) = storeOf db?) := by
  refine ⟨runTicks_store_shape srcs cfg, ?_, runTicks_notifs_fresh srcs cfg,
    ?_, ?_, ?_⟩
  · intro kk hkk
    rw [runTicks_store_shape]
    exact List.mem_append_left _ hkk
  · rintro (_ | d) owner (_ | pd) <;> simp [register, storeOf]
  · rintro (_ | d) owner <;> simp [unregister, storeOf]
  · rintro (_ | d) raw
    · rfl
    · by_cases hlen : d.items.length < 1000
      · rcases raw with _ | items
        · simp [initialize_item_database, hlen, storeOf]
        · simp only [initialize_item_database, if_pos hlen]
          split <;> rfl
      · simp [initialize_item_database, hlen, storeOf]

/-- C8 witness: the store-append equation evaluated over one concrete
tick. -/
theorem c8_witness :
    storeOf (runTicks c8Cfg [c8Src]).1 =
      storeOf c8Cfg.db ++ (runTicks c8Cfg [c8Src]).2.map Notif.eventIdStr :=
  (c8_store_only_grows c8Cfg [c8Src]).1

/-- C10: the deduplication key is the Python string form of the event id:
the store extends by exactly the emitted notifications' id strings, every
emitted notification comes from a fetched event and carries that event's
`str(EventId)` as its key, the number 5 and the string "5" have the same
key, and processing two events whose ids stringify equally emits only the
first. -/
theorem c10_dedup_key_is_string_form (src : Nat → FetchResult)
    (store : List String) (ps : List RegisteredPlayer) :
    (runPlayers src store ps).store =
      store ++ (runPlayers src store ps).notifs.map Notif.eventIdStr
    ∧ (∀ n ∈ (runPlayers src store ps).notifs,
        ∃ p ∈ ps, ∃ l, src p.player_data.Id = FetchResult.ok l ∧
          ∃ e ∈ l, n = mkNotif e ∧ n.eventIdStr = pyStr e.EventId)
    ∧ pyStr (PyVal.num 5) = pyStr (PyVal.str "5")
    ∧ (processEvents [] [c10EventNum, c10EventStr]).1 = [mkNotif c10EventNum] := by
  refine ⟨runPlayers_store_shape src ps store, ?_, rfl, rfl⟩
  intro n hn
  rcases runPlayers_notifs_from src ps store n hn with ⟨p, hp, l, hl, e, he, heq⟩
  exact ⟨p, hp, l, hl, e, he, heq, by rw [heq, mkNotif_eventIdStr]⟩

/-- C10 witness: the num/str collision and the resulting suppression, taken
from the claim theorem at concrete inputs. -/
theorem c10_witness :
    pyStr (PyVal.num 5) = pyStr (PyVal.str "5")
    ∧ (processEvents [] [c10EventNum, c10EventStr]).1 = [mkNotif c10EventNum] :=
  ⟨(c10_dedup_key_is_string_form c10Src [] []).2.2.1,
   (c10_dedup_key_is_string_form c10Src [] []).2.2.2⟩

theorem qualityStep_tier (q : List Char) (t : Option Nat) (e : Nat) :
    (qualityStep q t e).tier = t := by
  rcases hq : quality_map.find? (fun p => hasSubstr p.1 q) with _ | p <;>
    simp [qualityStep, hq]

theorem qualityStep_ench (q : List Char) (t : Option Nat) (e : Nat) :
    (qualityStep q t e).enchantment = e := by
  rcases hq : quality_map.find? (fun p => hasSubstr p.1 q) with _ | p <;>
    simp [qualityStep, hq]

theorem qualityStep_base (q : List Char) (t : Option Nat) (e : Nat) :
    (qualityStep q t e).base_name = qualityErase q := by
  rcases hq : quality_map.find? (fun p => hasSubstr p.1 q) with _ | p <;>
    simp [qualityStep, qualityErase, hq]

theorem qualityStep_quality (q : List Char) (t : Option Nat) (e : Nat) :
    (qualityStep q t e).quality_num = none ∨
      ∃ w n, (w, n) ∈ quality_map ∧
        (qualityStep q t e).quality_num = some n ∧
        (qualityStep q t e).quality_name = some (pyCapitalize w) := by
  rcases hq : quality_map.find? (fun p => hasSubstr p.1 q) with _ | p
  · left; simp [qualityStep, hq]
  · right
    refine ⟨p.1, p.2, ?_, by simp [qualityStep, hq], by simp [qualityStep, hq]⟩
    exact List.mem_of_find?_eq_some hq

theorem parse_item_query_eq (q : String) :
    parse_item_query q =
      match reSearchTier (pyLower q.toList) with
      | none => qualityStep (pyLower q.toList) none 0
      | some m =>
        qualityStep (pyStrip (replaceAll m.2.2 (pyLower q.toList)))
          (some (charDigit m.1))
          (match m.2.1 with
           | some e => charDigit e
           | none => 0) := rfl

theorem parse_item_query_is_qualityStep (q : String) :
    ∃ t e, parse_item_query q =
      qualityStep (tierStep (pyLower q.toList)) t e := by
  rw [parse_item_query_eq, tierStep]
  rcases hm : reSearchTier (pyLower q.toList) with _ | m
  · exact ⟨none, 0, rfl⟩
  · exact ⟨some (charDigit m.1),
      (match m.2.1 with | some e => charDigit e | none => 0), rfl⟩

/-- C9: for every input string, `parse_item_query` returns a tier that is
None or in 1..8; an enchantment in 0..4, equal to 0 whenever the tier
pattern is absent or matched without its `.n` group; a quality number that
is None or a value 1..5 taken from the quality-word table together with the
capitalized word; and a base name equal to the lowered input with the
matched tier text deleted and stripped, then the matched quality word
deleted and stripped. -/
theorem c9_parse_item_query_fields (q : String) :
    ((parse_item_query q).tier = none ∨
      ∃ t, (parse_item_query q).tier = some t ∧ 1 ≤ t ∧ t ≤ 8)
    ∧ (parse_item_query q).enchantment ≤ 4
    ∧ (reSearchTier (pyLower q.toList) = none →
        (parse_item_query q).tier = none ∧ (parse_item_query q).enchantment = 0)
    ∧ (∀ d m, reSearchTier (pyLower q.toList) = some (d, none, m) →
        (parse_item_query q).enchantment = 0)
    ∧ ((parse_item_query q).quality_num = none ∨
        ∃ w n, (w, n) ∈ quality_map ∧
          (parse_item_query q).quality_num = some n ∧ 1 ≤ n ∧ n ≤ 5 ∧
          (parse_item_query q).quality_name = some (pyCapitalize w))
    ∧ (parse_item_query q).base_name = qualityErase (tierStep (pyLower q.toList)) := by
  rcases parse_item_query_is_qualityStep q with ⟨t0, e0, hq0⟩
  refine ⟨?_, ?_, ?_, ?_, ?_, ?_⟩
  · rw [parse_item_query_eq]
    rcases hm : reSearchTier (pyLower q.toList) with _ | ⟨d, e?, m⟩
    · left
      simp [qualityStep_tier]
    · right
      refine ⟨charDigit d, ?_,
        isTierDigit_range d (reSearchTier_shape _ d e? m hm).1⟩
      simp [qualityStep_tier]
  · rw [parse_item_query_eq]
    rcases hm : reSearchTier (pyLower q.toList) with _ | ⟨d, e?, m⟩
    · simp [qualityStep_ench]
    · rcases e? with _ | e
      · simp [qualityStep_ench]
      · have hr := isEnchDigit_range e
          ((reSearchTier_shape _ d (some e) m hm).2 e rfl)
        simp only [qualityStep_ench]
        omega
  · intro hnone
    rw [parse_item_query_eq, hnone]
    simp [qualityStep_tier, qualityStep_ench]
  · intro d m hm
    rw [parse_item_query_eq, hm]
    simp [qualityStep_ench]
  · rw [hq0]
    rcases qualityStep_quality (tierStep (pyLower q.toList)) t0 e0 with
      h | ⟨w, n, hmem, hnum, hname⟩
    · left; exact h
    · right
      exact ⟨w, n, hmem, hnum, (quality_map_range w n hmem).1,
        (quality_map_range w n hmem).2, hname⟩
  · rw [hq0, qualityStep_base]

/-- C9 witness: the field guarantees evaluated on a concrete query with a
tier, an enchantment and a quality word. -/
theorem c9_witness :
    (parse_item_query "T4.2 Excellent Sword").tier = some 4
    ∧ (parse_item_query "T4.2 Excellent Sword").enchantment ≤ 4
    ∧ (parse_item_query "T4.2 Excellent Sword").base_name = "sword".toList :=
  ⟨by decide, (c9_parse_item_query_fields "T4.2 Excellent Sword").2.1, by decide⟩
